import Mathlib

/-!
# Verification of the madsim simulation substrate

A shallow embedding, in Lean 4, of the parts of the `madsim` repository that
the checked properties speak about:

* the per-node virtual filesystem (`src/madsim/src/fs.rs`): inode store,
  `open` / `create`, `File::read_at`, `File::write_all_at`, `File::set_len`;
* the S3 service emulator (`src/madsim-aws-sdk-s3/src/server/service.rs`):
  `create_multipart_upload`, `get_object`, `delete_object`, `delete_objects`,
  `head_object`;
* a model, written from the design document, of the deterministic scheduler
  (the scheduler itself is not among the given source files).

Machine integers are embedded as `Nat` / `Int`; `u32` values are reduced
modulo `2 ^ 32` where they are produced.  A Rust operation that can panic
(`usize` subtraction underflow, out-of-range slicing, `todo!()`) is embedded
as an `Option`- or marker-returning function whose `none` / `panic` value
marks the panic.  `BTreeMap`s are embedded as association lists looked up by
first occurrence; the maps built by the code never hold a duplicated key, so
first-occurrence lookup agrees with the map semantics.
-/

/-! ## Association lists (embedding of `BTreeMap` / `HashMap`) -/

/-- First-occurrence lookup in an association list. -/
def lookupA {α : Type} (l : List (String × α)) (k : String) : Option α :=
  match l with
  | [] => none
  | (k', v) :: rest => if k' = k then some v else lookupA rest k

/-- Insert-or-replace: replaces the first binding of `k`, appends a new
binding when `k` is absent. -/
def updateA {α : Type} (l : List (String × α)) (k : String) (v : α) :
    List (String × α) :=
  match l with
  | [] => [(k, v)]
  | (k', v') :: rest =>
    if k' = k then (k, v) :: rest else (k', v') :: updateA rest k v

/-- Removal of a key (embedding of `BTreeMap::remove`). -/
def eraseA {α : Type} (l : List (String × α)) (k : String) :
    List (String × α) :=
  l.filter (fun kv => kv.1 ≠ k)

theorem lookupA_updateA_self {α : Type} (l : List (String × α)) (k : String)
    (v : α) : lookupA (updateA l k v) k = some v := by
  induction l with
  | nil => simp [updateA, lookupA]
  | cons hd tl ih =>
    by_cases h : hd.1 = k
    · simp [updateA, lookupA, h]
    · simpa [updateA, lookupA, h] using ih

theorem lookupA_updateA_ne {α : Type} (l : List (String × α)) (k k' : String)
    (v : α) (h : k ≠ k') : lookupA (updateA l k v) k' = lookupA l k' := by
  induction l with
  | nil => simp [updateA, lookupA, h]
  | cons hd tl ih =>
    by_cases hk : hd.1 = k
    · simp [updateA, lookupA, hk, h]
    · by_cases hk' : hd.1 = k'
      · simp [updateA, lookupA, hk, hk', Ne.symm h]
      · simpa [updateA, lookupA, hk, hk'] using ih

theorem lookupA_eraseA_self {α : Type} (l : List (String × α)) (k : String) :
    lookupA (eraseA l k) k = none := by
  induction l with
  | nil => simp [eraseA, lookupA]
  | cons hd tl ih =>
    by_cases h : hd.1 = k
    · simpa [eraseA, lookupA, h] using ih
    · simpa [eraseA, lookupA, h] using ih

/-- Appending a fresh binding is found by lookup. -/
theorem lookupA_append_fresh {α : Type} (l : List (String × α)) (k : String)
    (v : α) (h : lookupA l k = none) : lookupA (l ++ [(k, v)]) k = some v := by
  induction l with
  | nil => simp [lookupA]
  | cons hd tl ih =>
    by_cases hk : hd.1 = k
    · simp [lookupA, hk] at h
    · simp only [lookupA, hk] at h
      simpa [lookupA, hk] using ih h

theorem lookupA_append_single_isSome {α : Type} (l : List (String × α))
    (k k' : String) (v : α) :
    (lookupA (l ++ [(k, v)]) k').isSome ↔ (lookupA l k').isSome ∨ k = k' := by
  induction l with
  | nil =>
    by_cases h : k = k' <;> simp [lookupA, h]
  | cons hd tl ih =>
    by_cases hk : hd.1 = k'
    · simp [lookupA, hk]
    · simpa [lookupA, hk] using ih

/-! ## Virtual filesystem (`src/madsim/src/fs.rs`)

The per-node filesystem `FileSystemLocalHandle` owns a map from paths to
`Arc<INode>`s; an `INode` is a growable byte buffer.  Sharing through `Arc`
is embedded by a heap: `inodes` is the list of inode buffers, and the
directory maps a path to the index of its inode.  A `File` holds the index of
its inode (two handles alias the same buffer exactly when they hold the same
index) and its `can_write` flag. -/

/-- The state of one node's virtual filesystem: the inode heap and the
directory (`fs: HashMap<PathBuf, Arc<INode>>`). -/
structure FsState where
  inodes : List (List Nat)
  dir : List (String × Nat)
  deriving DecidableEq, Repr

/-- `File { inode: Arc<INode>, can_write: bool }`: the inode is identified by
its index into the heap. -/
structure File where
  inode : Nat
  can_write : Bool
  deriving DecidableEq, Repr

/-- The error kinds the filesystem returns (`std::io::ErrorKind`). -/
inductive FsError where
  | notFound (path : String)
  | permissionDenied
  deriving DecidableEq, Repr

/-- The empty filesystem of a fresh node (`FileSystemLocalHandle::new`). -/
def emptyFs : FsState := { inodes := [], dir := [] }

/-- `FileSystemLocalHandle::open`: look the path up, `NotFound` when it was
never created, otherwise a read-only handle to the existing inode. -/
def FileSystemLocalHandle.openF (st : FsState) (p : String) :
    Except FsError File :=
  match lookupA st.dir p with
  | some id => Except.ok { inode := id, can_write := false }
  | none => Except.error (FsError.notFound p)

/-- `FileSystemLocalHandle::create`: `and_modify(truncate)` on an existing
path, `or_insert` of a fresh empty inode otherwise; the returned handle is
writable.  The Rust body always ends in `Ok(..)`. -/
def FileSystemLocalHandle.createF (st : FsState) (p : String) :
    Except FsError (FsState × File) :=
  match lookupA st.dir p with
  | some id =>
    Except.ok ({ st with inodes := st.inodes.set id [] },
               { inode := id, can_write := true })
  | none =>
    Except.ok ({ inodes := st.inodes ++ [[]],
                 dir := st.dir ++ [(p, st.inodes.length)] },
               { inode := st.inodes.length, can_write := true })

/-- `File::read_at(buf, offset)`.  The Rust code computes
`end = data.len().min(offset + buf.len())` and then `len = end - offset` on
`usize`: when `offset > end` the subtraction underflows and the call panics,
embedded as `none`.  Otherwise the result is `some (len, buf')` where `buf'`
is the caller's buffer with its first `len` bytes overwritten by
`data[offset..end]`. -/
def File.read_at (st : FsState) (f : File) (buf : List Nat) (offset : Nat) :
    Option (Nat × List Nat) :=
  let data := st.inodes.getD f.inode []
  let en := min data.length (offset + buf.length)
  if offset ≤ en then
    let len := en - offset
    some (len, (data.drop offset).take len ++ buf.drop len)
  else none

/-- `File::write_all_at(buf, offset)`.  A read-only handle is refused with
`PermissionDenied` before the buffer is touched.  Otherwise, as in the
source: `end = data.len().min(offset + buf.len())`, `len = end - offset`
(`usize` underflow panics, embedded as `none`), `data[offset..end]` is
overwritten with `buf[..len]`, and when `len < buf.len()` the rest of `buf`
is appended.  The returned state is the filesystem afterwards. -/
def File.write_all_at (st : FsState) (f : File) (buf : List Nat)
    (offset : Nat) : Option (Except FsError Unit × FsState) :=
  if !f.can_write then some (Except.error FsError.permissionDenied, st)
  else
    let data := st.inodes.getD f.inode []
    let en := min data.length (offset + buf.length)
    if offset ≤ en then
      let len := en - offset
      let data1 := data.take offset ++ buf.take len ++ data.drop en
      let data2 := if len < buf.length then data1 ++ buf.drop len else data1
      some (Except.ok (), { st with inodes := st.inodes.set f.inode data2 })
    else none

/-- `File::set_len(size)`: `Vec::resize(size, 0)` truncates or zero-extends
exactly to `size`; the Rust body always returns `Ok(())`. -/
def File.set_len (st : FsState) (f : File) (size : Nat) : FsState :=
  let data := st.inodes.getD f.inode []
  { st with
    inodes :=
      st.inodes.set f.inode
        (data.take size ++ List.replicate (size - data.length) 0) }

/-! ### Traces of filesystem operations

For the `open`-fails-iff-never-created property the filesystem is driven by a
list of operations from the fresh state.  Only `create` ever touches the
directory; reads do not change the state at all. -/

/-- A state-changing filesystem call: `create(p)`, `write_all_at` or
`set_len` through a handle.  (`open` and `read_at` leave the state as it
is.) -/
inductive FsOp where
  | createOp (p : String)
  | writeOp (f : File) (buf : List Nat) (off : Nat)
  | setLenOp (f : File) (size : Nat)
  deriving DecidableEq, Repr

/-- One operation applied to the filesystem.  A panicking or failing write
leaves the state unchanged. -/
def applyOp (st : FsState) (op : FsOp) : FsState :=
  match op with
  | FsOp.createOp p =>
    match FileSystemLocalHandle.createF st p with
    | Except.ok r => r.1
    | Except.error _ => st
  | FsOp.writeOp f buf off =>
    match File.write_all_at st f buf off with
    | some (_, st') => st'
    | none => st
  | FsOp.setLenOp f size => File.set_len st f size

/-- A whole trace of operations run from a state. -/
def runOps (st : FsState) (ops : List FsOp) : FsState :=
  ops.foldl applyOp st

theorem lookupA_dir_applyOp (st : FsState) (op : FsOp) (p : String) :
    (lookupA (applyOp st op).dir p).isSome ↔
      (lookupA st.dir p).isSome ∨ op = FsOp.createOp p := by
  cases op with
  | createOp q =>
    unfold applyOp FileSystemLocalHandle.createF
    cases h : lookupA st.dir q with
    | some id =>
      by_cases hq : q = p
      · subst hq
        simp [h]
      · simp [h, hq]
    | none =>
      by_cases hq : q = p
      · subst hq
        simp [h, lookupA_append_single_isSome]
      · simp [h, hq, lookupA_append_single_isSome]
  | writeOp f buf off =>
    unfold applyOp File.write_all_at
    by_cases hw : f.can_write
    · by_cases hoff : off ≤ ((st.inodes[f.inode]?).getD []).length
      · simp [hw, hoff]
      · simp [hw, hoff]
    · simp [hw]
  | setLenOp f size =>
    unfold applyOp File.set_len
    simp

theorem lookupA_dir_runOps (ops : List FsOp) (st : FsState) (p : String) :
    (lookupA (runOps st ops).dir p).isSome ↔
      (lookupA st.dir p).isSome ∨ FsOp.createOp p ∈ ops := by
  induction ops generalizing st with
  | nil => simp [runOps]
  | cons op rest ih =>
    have : runOps st (op :: rest) = runOps (applyOp st op) rest := rfl
    rw [this, ih, lookupA_dir_applyOp]
    constructor
    · rintro (⟨h | h⟩ | h)
      · exact Or.inl h
      · exact Or.inr (by simp [h])
      · exact Or.inr (List.mem_cons_of_mem _ h)
    · rintro (h | h)
      · exact Or.inl (Or.inl h)
      · rcases List.mem_cons.mp h with h | h
        · exact Or.inl (Or.inr h.symm)
        · exact Or.inr h

/-! ## S3 service emulator (`src/madsim-aws-sdk-s3/src/server/service.rs`) -/

/-- `ObjectPart { part_number: i32, body: Bytes, e_tag: String }`. -/
structure ObjectPart where
  part_number : Int
  body : List Nat
  e_tag : String
  deriving DecidableEq, Repr

/-- `Object { body, completed, parts, last_modified, content_length }`;
`parts` maps an upload id to its uploaded parts. -/
structure Object where
  body : List Nat
  completed : Bool
  parts : List (String × List ObjectPart)
  last_modified : Option Nat
  content_length : Int
  deriving DecidableEq, Repr

/-- `Object::default()`. -/
def Object.deflt : Object :=
  { body := [], completed := false, parts := [], last_modified := none,
    content_length := 0 }

/-- `ServiceInner::storage`: bucket name to (key to object). -/
def Storage : Type := List (String × List (String × Object))

/-- The error values the embedded service operations return.  The source
wraps most of them in `unhandled(..)`; the constructors keep the kind and
the message the source puts in. -/
inductive S3Error where
  | noSuchBucket (bucket : String)
  | noSuchKey (key : String)
  | notFound (key : String)
  | noSuchUpload (uploadId : String)
  | invalidRange (range : String)
  | unsupportedRangeUnit (unit : String)
  | invalidPartNumber (n : Int)
  deriving DecidableEq, Repr

/-- The retry loop of `create_multipart_upload`: draw
`thread_rng().gen::<u32>().to_string()`, retry while the id is already a key
of `object.parts`.  The random stream is the sequence of `u32` draws; `fuel`
bounds how many draws the embedding may make, so that `none` witnesses a run
that has not returned within `fuel` draws. -/
def cmuLoop (parts : List (String × List ObjectPart)) (stream : Nat → Nat) :
    Nat → Nat → Option (String × List (String × List ObjectPart))
  | 0, _ => none
  | fuel + 1, i =>
    let uploadId := toString (stream i % 4294967296)
    if (lookupA parts uploadId).isSome then cmuLoop parts stream fuel (i + 1)
    else some (uploadId, parts ++ [(uploadId, [])])

/-- `ServiceInner::create_multipart_upload`: error when the bucket does not
exist; otherwise `entry(key).or_default()` and the retry loop above.  The
result is `none` when the loop has not returned within `fuel` draws,
otherwise the updated storage and the fresh upload id. -/
def create_multipart_upload (st : Storage) (bucket key : String)
    (stream : Nat → Nat) (fuel : Nat) :
    Option (Except S3Error (Storage × String)) :=
  match lookupA st bucket with
  | none => some (Except.error (S3Error.noSuchBucket bucket))
  | some objs =>
    let obj := (lookupA objs key).getD Object.deflt
    match cmuLoop obj.parts stream fuel 0 with
    | none => none
    | some (id, parts') =>
      let obj' := { obj with parts := parts' }
      some (Except.ok (updateA st bucket (updateA objs key obj'), id))

/-- `create_multipart_upload` never returns, whatever the fuel: the
embedding of an infinite retry loop. -/
def cmuDiverges (st : Storage) (bucket key : String)
    (stream : Nat → Nat) : Prop :=
  ∀ fuel : Nat, create_multipart_upload st bucket key stream fuel = none

/-- The outcome of `get_object`: a body, a returned error, or a panic
(`todo!()` or an out-of-range `Bytes::slice`). -/
inductive GetResult where
  | ok (body : List Nat)
  | err (e : S3Error)
  | panic
  deriving DecidableEq, Repr

/-- `str::split_once(sep)`: the pieces around the first occurrence of the
separator, `none` when the separator does not occur. -/
def splitOnceStr (s sep : String) : Option (String × String) :=
  match s.splitOn sep with
  | [] => none
  | [_] => none
  | x :: rest => some (x, String.intercalate sep rest)

/-- `Bytes::slice(b..e)` (exclusive end): panics — `none` — unless
`b ≤ e ∧ e ≤ len`. -/
def bytesSlice (body : List Nat) (b e : Nat) : Option (List Nat) :=
  if b ≤ e ∧ e ≤ body.length then some ((body.drop b).take (e - b)) else none

/-- `ServiceInner::get_object`.  Missing bucket or key (or an object whose
multipart upload was never completed) is an error; a `range` is parsed as
`bytes=<begin>-<end>` per RFC 9110 and sliced out of the body; with no range
but a `part_number` the code validates the number against the body length and
then hits `todo!("get object by part number")` — the `panic` outcome. -/
def get_object (st : Storage) (bucket key : String) (range : Option String)
    (partNumber : Option Int) : GetResult :=
  match lookupA st bucket with
  | none => GetResult.err (S3Error.noSuchBucket bucket)
  | some objs =>
    match lookupA objs key with
    | none => GetResult.err (S3Error.noSuchKey key)
    | some obj =>
      if !obj.completed then GetResult.err (S3Error.noSuchKey key)
      else
        match range with
        | some r =>
          match r.splitOn "=" with
          | [] => GetResult.err (S3Error.invalidRange r)
          | rangeUnit :: rest =>
            if rangeUnit ≠ "bytes" then
              GetResult.err (S3Error.unsupportedRangeUnit rangeUnit)
            else
              match rest with
              | [] => GetResult.err (S3Error.invalidRange r)
              | rangeSet :: _ =>
                match splitOnceStr rangeSet "-" with
                | none => GetResult.err (S3Error.invalidRange r)
                | some (beginStr, endStr) =>
                  let beginPos : Option (Option Nat) :=
                    if beginStr = "" then some none
                    else beginStr.toNat?.map some
                  let endPos : Option (Option Nat) :=
                    if endStr = "" then some none
                    else endStr.toNat?.map some
                  match beginPos, endPos with
                  | none, _ => GetResult.err (S3Error.invalidRange r)
                  | some _, none => GetResult.err (S3Error.invalidRange r)
                  | some bp, some ep =>
                    match bp, ep with
                    | some b, some e =>
                      match bytesSlice obj.body b (e + 1) with
                      | some s => GetResult.ok s
                      | none => GetResult.panic
                    | some b, none =>
                      if b ≤ obj.body.length then GetResult.ok (obj.body.drop b)
                      else GetResult.panic
                    | none, some n =>
                      if n ≤ obj.body.length then
                        GetResult.ok (obj.body.drop (obj.body.length - n))
                      else GetResult.panic
                    | none, none => GetResult.ok obj.body
        | none =>
          match partNumber with
          | some pn =>
            if pn < 0 ∨ obj.body.length ≤ pn.toNat then
              GetResult.err (S3Error.invalidPartNumber pn)
            else GetResult.panic
          | none => GetResult.ok obj.body

/-- The per-key effect of `delete_object` (and of each key of
`delete_objects`): a missing or uncompleted object is left as it is; a
completed object with no pending uploads is removed; a completed object that
still has pending uploads keeps its parts but loses its body and its
`completed` flag. -/
def deleteKeyEffect (objs : List (String × Object)) (key : String) :
    List (String × Object) :=
  match lookupA objs key with
  | none => objs
  | some o =>
    if o.completed then
      if o.parts.isEmpty then eraseA objs key
      else updateA objs key { o with completed := false, body := [] }
    else objs

/-- `ServiceInner::delete_object`: error only for a missing bucket, otherwise
success with the per-key effect applied. -/
def delete_object (st : Storage) (bucket key : String) :
    Except S3Error Storage :=
  match lookupA st bucket with
  | none => Except.error (S3Error.noSuchBucket bucket)
  | some objs => Except.ok (updateA st bucket (deleteKeyEffect objs key))

/-- `ServiceInner::delete_objects`: the request carries
`Option<Vec<ObjectIdentifier>>`, each identifier an `Option<String>` key;
missing bucket is an error, a request with no object list succeeds and does
nothing, otherwise every listed key gets the per-key effect and is reported
as deleted. -/
def delete_objects (st : Storage) (bucket : String)
    (objects : Option (List (Option String))) :
    Except S3Error (Storage × List String) :=
  match lookupA st bucket with
  | none => Except.error (S3Error.noSuchBucket bucket)
  | some objs =>
    match objects with
    | none => Except.ok (st, [])
    | some items =>
      let keys := items.filterMap id
      Except.ok (updateA st bucket (keys.foldl deleteKeyEffect objs), keys)

/-- `ServiceInner::head_object`: missing bucket, missing key or an
uncompleted object is an error (`NotFound` for the key cases); otherwise the
object's `last_modified` and `content_length`. -/
def head_object (st : Storage) (bucket key : String) :
    Except S3Error (Option Nat × Int) :=
  match lookupA st bucket with
  | none => Except.error (S3Error.noSuchBucket bucket)
  | some objs =>
    match lookupA objs key with
    | none => Except.error (S3Error.notFound key)
    | some obj =>
      if !obj.completed then Except.error (S3Error.notFound key)
      else Except.ok (obj.last_modified, obj.content_length)

/-! ## Deterministic scheduler (modelled from the spec)

The scheduler, virtual clock and seeded RNG of the substrate are not among
the given source files; §4.1–§4.4 of the design document specify them.  The
model below follows those sections: tasks carry a tie-break key drawn from
the insertion sequence, the scheduler always executes the runnable task with
the smallest key, and when nothing is runnable it advances the virtual clock
to the earliest pending event, ties broken by the same keys.  A step is
written as a relation — which of several runnable tasks runs is a premise,
not a computation — and determinism is the theorem that the selection rule
of §4.1 admits only one step from any well-formed state. -/

/-- Modelled from the spec: one cooperatively scheduled task — its node/task
identity, its tie-break key ("derived from seed and insertion sequence",
§4.1) and how many times it has resumed. -/
structure STask where
  tid : Nat
  key : Nat
  resumes : Nat
  deriving DecidableEq, Repr

/-- Modelled from the spec: what a task does when it runs until its next
suspension point — complete, sleep for `d` ticks, or write a byte to the
virtual filesystem and stay runnable. -/
inductive SEffect where
  | done
  | sleep (d : Nat)
  | write (v : Nat)
  deriving DecidableEq, Repr

/-- Modelled from the spec: the fixed task/work graph — the effect a task
performs at its `n`-th resumption. -/
def WorkGraph : Type := Nat → Nat → SEffect

/-- Modelled from the spec: the per-node seeded random stream (§4.4), a pure
linear-congruential step on a 32-bit word. -/
def rngNext (r : Nat) : Nat := (r * 1103515245 + 12345) % 4294967296

/-- Modelled from the spec: a pending timed event — the wake-up timestamp
and the task it resumes. -/
structure SEvent where
  time : Nat
  task : STask
  deriving DecidableEq, Repr

/-- Modelled from the spec: the scheduler state — runnable tasks, pending
timed events, the virtual clock, the RNG word, the insertion-sequence
counter for fresh keys, and the bytes written to the virtual filesystem. -/
structure SimState where
  runnable : List STask
  pending : List SEvent
  clock : Nat
  rng : Nat
  nextKey : Nat
  fsLog : List Nat
  deriving DecidableEq, Repr

/-- Modelled from the spec: one entry of the observable execution record —
which task ran, the clock it read, and the RNG word it observed. -/
structure SchedEv where
  tid : Nat
  clock : Nat
  rngOut : Nat
  deriving DecidableEq, Repr

/-- The state after the chosen task `t` runs one slice: `t` leaves the run
queue, the RNG steps, and `t`'s effect completes it, re-queues it at a wake
time, or appends to the filesystem log and re-queues it runnable — in the
last two cases under a fresh insertion-sequence key. -/
def execEffect (g : WorkGraph) (s : SimState) (t : STask) : SimState :=
  let base := { s with runnable := s.runnable.erase t, rng := rngNext s.rng }
  match g t.tid t.resumes with
  | SEffect.done => base
  | SEffect.sleep d =>
    { base with
      pending :=
        base.pending ++ [⟨s.clock + d, ⟨t.tid, s.nextKey, t.resumes + 1⟩⟩],
      nextKey := s.nextKey + 1 }
  | SEffect.write v =>
    { base with
      runnable := base.runnable ++ [⟨t.tid, s.nextKey, t.resumes + 1⟩],
      nextKey := s.nextKey + 1,
      fsLog := s.fsLog ++ [v] }

/-- The state after the clock advances to the pending event `e` and its task
becomes runnable. -/
def advanceEffect (s : SimState) (e : SEvent) : SimState :=
  { s with pending := s.pending.erase e, runnable := [e.task],
           clock := e.time }

/-- The (timestamp, key) order of §4.3: earlier wake time first, ties broken
by the insertion-sequence key. -/
def evLE (e e' : SEvent) : Prop :=
  e.time < e'.time ∨ (e.time = e'.time ∧ e.task.key ≤ e'.task.key)

/-- Modelled from the spec: one scheduling step.  `exec` runs a runnable
task of minimal key and records (task, clock reading, RNG word); `advance`
fires only when nothing is runnable and moves the earliest pending event's
task to the run queue. -/
inductive SchedStep (g : WorkGraph) :
    SimState → List SchedEv → SimState → Prop where
  | exec (s : SimState) (t : STask) (ht : t ∈ s.runnable)
      (hmin : ∀ u ∈ s.runnable, t.key ≤ u.key) :
      SchedStep g s [⟨t.tid, s.clock, s.rng⟩] (execEffect g s t)
  | advance (s : SimState) (e : SEvent) (hr : s.runnable = [])
      (he : e ∈ s.pending) (hmin : ∀ q ∈ s.pending, evLE e q) :
      SchedStep g s [] (advanceEffect s e)

/-- A complete run: steps until neither a runnable task nor a pending event
is left, collecting the execution record. -/
inductive SchedRun (g : WorkGraph) :
    SimState → List SchedEv → SimState → Prop where
  | term (s : SimState) (h1 : s.runnable = []) (h2 : s.pending = []) :
      SchedRun g s [] s
  | step {s s' sf : SimState} {es tr : List SchedEv}
      (h1 : SchedStep g s es s') (h2 : SchedRun g s' tr sf) :
      SchedRun g s (es ++ tr) sf

/-- The tie-break keys alive in a state, runnable first. -/
def allKeys (s : SimState) : List Nat :=
  s.runnable.map STask.key ++ s.pending.map (fun e => e.task.key)

/-- Well-formed scheduler state: no two live tasks share a tie-break key,
and every live key is below the insertion-sequence counter. -/
def SimWF (s : SimState) : Prop :=
  (allKeys s).Nodup ∧ ∀ k ∈ allKeys s, k < s.nextKey

theorem key_inj_runnable (s : SimState) (hwf : SimWF s) {t u : STask}
    (ht : t ∈ s.runnable) (hu : u ∈ s.runnable) (hk : t.key = u.key) :
    t = u := by
  have hnd : (s.runnable.map STask.key).Nodup := hwf.1.of_append_left
  exact List.inj_on_of_nodup_map hnd ht hu hk

theorem key_inj_pending (s : SimState) (hwf : SimWF s) {e q : SEvent}
    (he : e ∈ s.pending) (hq : q ∈ s.pending) (hk : e.task.key = q.task.key) :
    e = q := by
  have hnd : (s.pending.map (fun e => e.task.key)).Nodup :=
    hwf.1.of_append_right
  exact List.inj_on_of_nodup_map hnd he hq hk

/-- §4.1's selection rule admits at most one step from a well-formed
state. -/
theorem schedStep_det (g : WorkGraph) (s : SimState)
    {es1 es2 : List SchedEv} {s1 s2 : SimState} (hwf : SimWF s)
    (h1 : SchedStep g s es1 s1) (h2 : SchedStep g s es2 s2) :
    es1 = es2 ∧ s1 = s2 := by
  cases h1 with
  | exec t ht hmin =>
    cases h2 with
    | exec u hu hmin' =>
      have hk : t.key = u.key := le_antisymm (hmin u hu) (hmin' t ht)
      have htu : t = u := key_inj_runnable s hwf ht hu hk
      subst htu
      exact ⟨rfl, rfl⟩
    | advance e hr he hmin' =>
      rw [hr] at ht
      simp at ht
  | advance e hr he hmin =>
    cases h2 with
    | exec u hu hmin' =>
      rw [hr] at hu
      simp at hu
    | advance e' hr' he' hmin' =>
      have hee : e = e' := by
        rcases hmin e' he' with h | ⟨hteq, hkle⟩ <;>
          rcases hmin' e he with h' | ⟨hteq', hkle'⟩
        · omega
        · omega
        · omega
        · exact key_inj_pending s hwf he he' (le_antisymm hkle hkle')
      subst hee
      exact ⟨rfl, rfl⟩

theorem nodup_append_fresh {l1 l2 : List Nat} {a : Nat}
    (h : (l1 ++ l2).Nodup) (ha : a ∉ l1 ++ l2) : (l1 ++ a :: l2).Nodup := by
  rw [List.nodup_middle]
  exact List.nodup_cons.mpr ⟨ha, h⟩

/-- Scheduling steps preserve well-formedness: the fresh key drawn from the
insertion-sequence counter collides with no live key. -/
theorem simWF_step (g : WorkGraph) {s : SimState} {es : List SchedEv}
    {s' : SimState} (hwf : SimWF s) (h : SchedStep g s es s') : SimWF s' := by
  obtain ⟨hnd, hlt⟩ := hwf
  cases h with
  | exec t ht hmin =>
    have hsub :
        List.Sublist
          ((s.runnable.erase t).map STask.key ++
            s.pending.map (fun e => e.task.key))
          (allKeys s) :=
      ((List.erase_sublist t s.runnable).map STask.key).append
        (List.Sublist.refl _)
    have hnd' :
        ((s.runnable.erase t).map STask.key ++
          s.pending.map (fun e => e.task.key)).Nodup :=
      hnd.sublist hsub
    have hlt' :
        ∀ k ∈ (s.runnable.erase t).map STask.key ++
            s.pending.map (fun e => e.task.key),
          k < s.nextKey :=
      fun k hk => hlt k (hsub.subset hk)
    have hfresh :
        s.nextKey ∉
          (s.runnable.erase t).map STask.key ++
            s.pending.map (fun e => e.task.key) :=
      fun hmem => lt_irrefl _ (hlt' _ hmem)
    cases hg : g t.tid t.resumes with
    | done =>
      have hAK : allKeys (execEffect g s t) =
          (s.runnable.erase t).map STask.key ++
            s.pending.map (fun e => e.task.key) := by
        simp [execEffect, hg, allKeys]
      have hNK : (execEffect g s t).nextKey = s.nextKey := by
        simp [execEffect, hg]
      constructor
      · rw [hAK]
        exact hnd'
      · rw [hNK, hAK]
        exact hlt'
    | sleep d =>
      have hAK : allKeys (execEffect g s t) =
          (s.runnable.erase t).map STask.key ++
            (s.pending.map (fun e => e.task.key) ++ [s.nextKey]) := by
        simp [execEffect, hg, allKeys]
      have hNK : (execEffect g s t).nextKey = s.nextKey + 1 := by
        simp [execEffect, hg]
      constructor
      · rw [hAK, ← List.append_assoc]
        exact @nodup_append_fresh _ [] _ (by simpa using hnd')
          (by simpa using hfresh)
      · rw [hNK, hAK, ← List.append_assoc]
        intro k hk
        rcases List.mem_append.mp hk with hk | hk
        · exact lt_trans (hlt' k hk) (Nat.lt_succ_self _)
        · rw [List.mem_singleton.mp hk]
          exact Nat.lt_succ_self _
    | write v =>
      have hAK : allKeys (execEffect g s t) =
          ((s.runnable.erase t).map STask.key ++ [s.nextKey]) ++
            s.pending.map (fun e => e.task.key) := by
        simp [execEffect, hg, allKeys]
      have hNK : (execEffect g s t).nextKey = s.nextKey + 1 := by
        simp [execEffect, hg]
      constructor
      · rw [hAK, List.append_assoc, List.singleton_append]
        exact nodup_append_fresh hnd' hfresh
      · rw [hNK, hAK, List.append_assoc, List.singleton_append]
        intro k hk
        rcases List.mem_append.mp hk with hk | hk
        · exact lt_trans (hlt' k (List.mem_append_left _ hk))
            (Nat.lt_succ_self _)
        · rcases List.mem_cons.mp hk with hk | hk
          · rw [hk]
            exact Nat.lt_succ_self _
          · exact lt_trans (hlt' k (List.mem_append_right _ hk))
              (Nat.lt_succ_self _)
  | advance e hr he hmin =>
    have hperm := (List.perm_cons_erase he).map (fun q : SEvent => q.task.key)
    rw [List.map_cons] at hperm
    have hall : allKeys s = s.pending.map (fun q => q.task.key) := by
      simp [allKeys, hr]
    have hnd0 : (s.pending.map (fun q => q.task.key)).Nodup := by
      rwa [hall] at hnd
    have hAK : allKeys (advanceEffect s e) =
        e.task.key :: (s.pending.erase e).map (fun q => q.task.key) := by
      simp [advanceEffect, allKeys]
    have hNK : (advanceEffect s e).nextKey = s.nextKey := by
      simp [advanceEffect]
    constructor
    · rw [hAK]
      exact hperm.nodup hnd0
    · rw [hNK, hAK]
      intro k hk
      have hk' : k ∈ s.pending.map (fun q => q.task.key) := hperm.mem_iff.mpr hk
      exact hlt k (by rw [hall]; exact hk')

theorem schedRun_det (g : WorkGraph) {s : SimState} {tr1 : List SchedEv}
    {f1 : SimState} (h1 : SchedRun g s tr1 f1) :
    ∀ {tr2 : List SchedEv} {f2 : SimState}, SimWF s →
      SchedRun g s tr2 f2 → tr1 = tr2 ∧ f1 = f2 := by
  induction h1 with
  | term s hr hp =>
    intro tr2 f2 hwf h2
    cases h2 with
    | term => exact ⟨rfl, rfl⟩
    | step hs _ =>
      cases hs with
      | exec t ht hmin =>
        rw [hr] at ht
        simp at ht
      | advance e hr' he hmin =>
        rw [hp] at he
        simp at he
  | step hs hrun ih =>
    intro tr2 f2 hwf h2
    cases h2 with
    | term _ hrr hpp =>
      cases hs with
      | exec t ht hmin =>
        rw [hrr] at ht
        simp at ht
      | advance e hr' he hmin =>
        rw [hpp] at he
        simp at he
    | step hs' hrun' =>
      obtain ⟨hes, hst⟩ := schedStep_det g _ hwf hs hs'
      subst hes
      subst hst
      obtain ⟨htr, hf⟩ := ih (simWF_step g hwf hs) hrun'
      exact ⟨by rw [htr], hf⟩

/-- The work graph of the concrete witness run: every task completes at its
first slice. -/
def gDone : WorkGraph := fun _ _ => SEffect.done

/-- The initial state of the concrete witness run: one runnable task. -/
def simS0 : SimState :=
  { runnable := [⟨0, 0, 0⟩], pending := [], clock := 0, rng := 7,
    nextKey := 1, fsLog := [] }

/-- The final state of the concrete witness run. -/
def simS1 : SimState := execEffect gDone simS0 ⟨0, 0, 0⟩

/-- C1: for a fixed seed-derived key assignment and a fixed task/work graph,
any two complete runs of the modelled scheduler from the same well-formed
state produce the identical execution record — the same scheduling order,
the same clock reading and the same RNG word at every suspension point — and
the identical final state, its filesystem log included.  (Modelled from the
spec: the scheduler, clock and RNG sources are not part of the given source
files.) -/
theorem c1_scheduler_determinism (g : WorkGraph) (s f1 f2 : SimState)
    (tr1 tr2 : List SchedEv) (hwf : SimWF s)
    (h1 : SchedRun g s tr1 f1) (h2 : SchedRun g s tr2 f2) :
    tr1 = tr2 ∧ f1 = f2 :=
  schedRun_det g h1 hwf h2

/-- C1, witness: a concrete one-task run, replayed twice, yields the same
record and final state. -/
theorem c1_scheduler_determinism_witness :
    SimWF simS0 ∧
      (([⟨0, 0, 7⟩] : List SchedEv) = [⟨0, 0, 7⟩] ∧ simS1 = simS1) := by
  have hwf : SimWF simS0 := ⟨by decide, by decide⟩
  have hstep : SchedStep gDone simS0 [⟨0, 0, 7⟩] simS1 :=
    SchedStep.exec simS0 ⟨0, 0, 0⟩ (by decide) (by decide)
  have hterm : SchedRun gDone simS1 [] simS1 :=
    SchedRun.term simS1 (by decide) (by decide)
  have hrun : SchedRun gDone simS0 [⟨0, 0, 7⟩] simS1 := by
    simpa using SchedRun.step hstep hterm
  exact ⟨hwf,
    c1_scheduler_determinism gDone simS0 simS1 simS1 _ _ hwf hrun hrun⟩

/-- The file holding the five bytes `hello` on which C2's failing input
reads. -/
def fsHello : FsState := { inodes := [[104, 101, 108, 108, 111]], dir := [("file", 0)] }

/-- C2, failing input: `read_at` with the offset one past end-of-data.  The
source computes `end = 5`, then `5 - 6` underflows `usize` and the call
panics (embedded `none`) instead of returning the zero-length short read the
spec promises. -/
theorem c2_read_at_past_end_panics :
    File.read_at fsHello ⟨0, true⟩ [0, 0, 0, 0] 6 = none := by decide

/-- The two-byte file on which C3's failing input writes. -/
def fsAB : FsState := { inodes := [[97, 98]], dir := [("ab", 0)] }

/-- C3, failing input: `write_all_at` at an offset strictly past the current
buffer length.  The source computes `end = 2`, then `2 - 5` underflows
`usize` and the call panics (embedded `none`) instead of appending the
written bytes. -/
theorem c3_write_past_len_panics :
    File.write_all_at fsAB ⟨0, true⟩ [120] 5 = none := rfl

theorem getD_set_self {α : Type} (l : List α) (i : Nat) (v d : α)
    (h : i < l.length) : (l.set i v).getD i d = v := by
  induction l generalizing i with
  | nil => simp at h
  | cons hd tl ih =>
    cases i with
    | zero => rfl
    | succ n =>
      have hn : n < tl.length := by simpa using h
      simpa [List.getD] using ih n hn

theorem getD_set_nil (l : List (List Nat)) (i : Nat) :
    (l.set i []).getD i [] = [] := by
  induction l generalizing i with
  | nil => simp
  | cons hd tl ih =>
    cases i with
    | zero => rfl
    | succ n => simpa [List.getD] using ih n

/-- C4: a `File` obtained via `open` is read-only: `write_all_at` through it
returns `PermissionDenied` as an explicit result value — whatever filesystem
state the write later runs against — and leaves that state untouched. -/
theorem c4_open_write_permission_denied (st st2 : FsState) (p : String)
    (f : File) (buf : List Nat) (off : Nat)
    (h : FileSystemLocalHandle.openF st p = Except.ok f) :
    File.write_all_at st2 f buf off =
      some (Except.error FsError.permissionDenied, st2) := by
  have hcw : f.can_write = false := by
    unfold FileSystemLocalHandle.openF at h
    cases hl : lookupA st.dir p with
    | some id =>
      rw [hl] at h
      injection h with h2
      rw [← h2]
    | none =>
      rw [hl] at h
      cases h
  unfold File.write_all_at
  simp [hcw]

/-- C4, witness: the read-only handle to `fsHello`'s file is refused. -/
theorem c4_open_write_permission_denied_witness :
    FileSystemLocalHandle.openF fsHello "file" = Except.ok ⟨0, false⟩ ∧
      File.write_all_at emptyFs ⟨0, false⟩ [5] 3 =
        some (Except.error FsError.permissionDenied, emptyFs) :=
  ⟨rfl, c4_open_write_permission_denied fsHello emptyFs "file" ⟨0, false⟩
    [5] 3 rfl⟩

/-- A write at offset `0` through a writable handle always succeeds, and the
inode buffer becomes the written bytes followed by whatever old data lay
past their end. -/
theorem write_all_at_zero (st : FsState) (f : File) (buf : List Nat)
    (hw : f.can_write = true) :
    File.write_all_at st f buf 0 =
      some (Except.ok (),
        { st with
          inodes :=
            st.inodes.set f.inode
              (buf ++ (st.inodes.getD f.inode []).drop buf.length) }) := by
  unfold File.write_all_at
  rcases Nat.lt_or_ge (st.inodes.getD f.inode []).length buf.length with
    h | h
  · have h' : ((st.inodes[f.inode]?).getD []).length < buf.length := by
      simpa using h
    have hmin :
        min ((st.inodes[f.inode]?).getD []).length buf.length =
          ((st.inodes[f.inode]?).getD []).length :=
      min_eq_left (le_of_lt h')
    simp [hw, hmin, h', List.drop_length,
      List.drop_eq_nil_of_le (le_of_lt h'), List.take_append_drop]
  · have h' : buf.length ≤ ((st.inodes[f.inode]?).getD []).length := by
      simpa using h
    have hmin :
        min ((st.inodes[f.inode]?).getD []).length buf.length =
          buf.length :=
      min_eq_right h'
    simp [hw, hmin, Nat.not_lt.mpr h', List.take_length]

/-- C5: the filesystem round-trip — through any writable handle to a live
inode, `write_all_at(buf, 0)` succeeds and a following `read_at` at offset
`0` with a buffer of the same length returns exactly `buf`: the full length
and the identical bytes. -/
theorem c5_write_read_roundtrip (st : FsState) (f : File)
    (buf buf2 : List Nat) (hw : f.can_write = true)
    (hi : f.inode < st.inodes.length) (hlen : buf2.length = buf.length) :
    ∃ st' : FsState,
      File.write_all_at st f buf 0 = some (Except.ok (), st') ∧
      File.read_at st' f buf2 0 = some (buf.length, buf) := by
  refine ⟨_, write_all_at_zero st f buf hw, ?_⟩
  unfold File.read_at
  have hD :
      (((st.inodes.set f.inode
            (buf ++ (st.inodes.getD f.inode []).drop buf.length)) :
          List (List Nat)).getD f.inode []) =
        buf ++ (st.inodes.getD f.inode []).drop buf.length :=
    getD_set_self _ _ _ _ hi
  have hDlen :
      buf.length ≤
        (buf ++ (st.inodes.getD f.inode []).drop buf.length).length := by
    simp
  have hmin :
      min (buf ++ (st.inodes.getD f.inode []).drop buf.length).length
          buf2.length = buf.length := by
    rw [hlen]
    exact min_eq_right hDlen
  simp only [hD]
  rw [hlen]
  simp [hmin, List.drop_eq_nil_of_le (le_of_eq hlen), List.take_left]

/-- C5, witness: writing two bytes into the (previously one-byte) inode of a
concrete filesystem and reading them back. -/
theorem c5_write_read_roundtrip_witness :
    (⟨0, true⟩ : File).can_write = true ∧ 0 < fsAB.inodes.length ∧
      ([7, 8] : List Nat).length = ([1, 2] : List Nat).length ∧
      ∃ st' : FsState,
        File.write_all_at fsAB ⟨0, true⟩ [1, 2] 0 =
            some (Except.ok (), st') ∧
        File.read_at st' ⟨0, true⟩ [7, 8] 0 = some (2, [1, 2]) :=
  ⟨rfl, by decide, rfl,
    c5_write_read_roundtrip fsAB ⟨0, true⟩ [1, 2] [7, 8] rfl (by decide) rfl⟩

/-- C6: `create` on an existing path truncates in place — the returned
writable handle holds the *same* inode index the directory already mapped
the path to, so every handle to that inode (opened before or after the
`create`) aliases the one buffer, and a `read_at` through any of them now
returns zero bytes and leaves the caller's buffer untouched. -/
theorem c6_truncate_on_create (st : FsState) (p : String) (id : Nat)
    (w : Bool) (buf : List Nat) (h : lookupA st.dir p = some id) :
    ∃ st' : FsState,
      FileSystemLocalHandle.createF st p =
          Except.ok (st', { inode := id, can_write := true }) ∧
      File.read_at st' { inode := id, can_write := w } buf 0 =
        some (0, buf) := by
  refine ⟨{ st with inodes := st.inodes.set id [] }, ?_, ?_⟩
  · unfold FileSystemLocalHandle.createF
    rw [h]
  · unfold File.read_at
    have hD : ((st.inodes.set id [])[id]?).getD [] = [] := by
      simpa using getD_set_nil st.inodes id
    simp [hD]

/-- C6, witness: re-creating `fsHello`'s file empties the shared inode. -/
theorem c6_truncate_on_create_witness :
    lookupA fsHello.dir "file" = some 0 ∧
      ∃ st' : FsState,
        FileSystemLocalHandle.createF fsHello "file" =
            Except.ok (st', { inode := 0, can_write := true }) ∧
        File.read_at st' { inode := 0, can_write := false } [9, 9] 0 =
          some (0, [9, 9]) :=
  ⟨rfl, c6_truncate_on_create fsHello "file" 0 false [9, 9] rfl⟩

/-- C7: from the fresh per-node filesystem, after any trace of operations,
`open p` succeeds exactly when some `create p` occurred in the trace; a
successful `open` yields a read-only handle to the inode the directory maps
`p` to; a failed `open` reports precisely `NotFound`; and `create` (against
any state) never fails and always returns a writable handle. -/
theorem c7_open_iff_created (ops : List FsOp) (p : String) (st2 : FsState)
    (f : File) (e : FsError) :
    ((∃ g : File,
        FileSystemLocalHandle.openF (runOps emptyFs ops) p = Except.ok g) ↔
      FsOp.createOp p ∈ ops) ∧
    (FileSystemLocalHandle.openF (runOps emptyFs ops) p = Except.ok f →
      f.can_write = false ∧
        lookupA (runOps emptyFs ops).dir p = some f.inode) ∧
    (FileSystemLocalHandle.openF (runOps emptyFs ops) p = Except.error e →
      e = FsError.notFound p) ∧
    ∃ r : FsState × File,
      FileSystemLocalHandle.createF st2 p = Except.ok r ∧
        r.2.can_write = true := by
  have hiff :
      (lookupA (runOps emptyFs ops).dir p).isSome ↔
        FsOp.createOp p ∈ ops := by
    have h := lookupA_dir_runOps ops emptyFs p
    simpa [emptyFs, lookupA] using h
  refine ⟨?_, ?_, ?_, ?_⟩
  · constructor
    · rintro ⟨g, hg⟩
      apply hiff.mp
      unfold FileSystemLocalHandle.openF at hg
      cases hl : lookupA (runOps emptyFs ops).dir p with
      | some id => simp [hl]
      | none =>
        rw [hl] at hg
        cases hg
    · intro hmem
      have hsome := hiff.mpr hmem
      cases hl : lookupA (runOps emptyFs ops).dir p with
      | some id =>
        refine ⟨{ inode := id, can_write := false }, ?_⟩
        unfold FileSystemLocalHandle.openF
        rw [hl]
      | none =>
        rw [hl] at hsome
        simp at hsome
  · intro hok
    unfold FileSystemLocalHandle.openF at hok
    cases hl : lookupA (runOps emptyFs ops).dir p with
    | some id =>
      rw [hl] at hok
      injection hok with h2
      refine ⟨by rw [← h2], ?_⟩
      rw [← h2]
    | none =>
      rw [hl] at hok
      cases hok
  · intro herr
    unfold FileSystemLocalHandle.openF at herr
    cases hl : lookupA (runOps emptyFs ops).dir p with
    | some id =>
      rw [hl] at herr
      cases herr
    | none =>
      rw [hl] at herr
      injection herr with h2
      rw [← h2]
  · unfold FileSystemLocalHandle.createF
    cases hl : lookupA st2.dir p with
    | some id => exact ⟨_, rfl, rfl⟩
    | none => exact ⟨_, rfl, rfl⟩

/-- C7, witness: one `create "a"` in the trace, looked at from every side of
the statement. -/
theorem c7_open_iff_created_witness :
    ((∃ g : File,
        FileSystemLocalHandle.openF (runOps emptyFs [FsOp.createOp "a"])
            "a" = Except.ok g) ↔
      FsOp.createOp "a" ∈ [FsOp.createOp "a"]) ∧
    (FileSystemLocalHandle.openF (runOps emptyFs [FsOp.createOp "a"]) "a" =
        Except.ok { inode := 0, can_write := false } →
      ({ inode := 0, can_write := false } : File).can_write = false ∧
        lookupA (runOps emptyFs [FsOp.createOp "a"]).dir "a" = some 0) ∧
    (FileSystemLocalHandle.openF (runOps emptyFs [FsOp.createOp "a"]) "a" =
        Except.error (FsError.notFound "a") →
      FsError.notFound "a" = FsError.notFound "a") ∧
    ∃ r : FsState × File,
      FileSystemLocalHandle.createF emptyFs "a" = Except.ok r ∧
        r.2.can_write = true :=
  c7_open_iff_created [FsOp.createOp "a"] "a" emptyFs
    { inode := 0, can_write := false } (FsError.notFound "a")

/-- If the random stream ever draws a value whose decimal string is not yet
a key of `parts`, the retry loop returns — at the latest at that draw — with
a fresh id, registered with an empty part list. -/
theorem cmuLoop_finds (parts : List (String × List ObjectPart))
    (stream : Nat → Nat) :
    ∀ n i,
      lookupA parts (toString (stream (i + n) % 4294967296)) = none →
      ∃ fuel id,
        cmuLoop parts stream fuel i = some (id, parts ++ [(id, [])]) ∧
          lookupA parts id = none := by
  intro n
  induction n with
  | zero =>
    intro i hfresh
    rw [Nat.add_zero] at hfresh
    refine ⟨1, toString (stream i % 4294967296), ?_, hfresh⟩
    simp [cmuLoop, hfresh]
  | succ n ih =>
    intro i hfresh
    cases hc : lookupA parts (toString (stream i % 4294967296)) with
    | none =>
      refine ⟨1, toString (stream i % 4294967296), ?_, hc⟩
      simp [cmuLoop, hc]
    | some ps =>
      have hf' :
          lookupA parts (toString (stream ((i + 1) + n) % 4294967296)) =
            none := by
        have harith : (i + 1) + n = i + (n + 1) := by omega
        rw [harith]
        exact hfresh
      obtain ⟨fuel, id, hloop, hfr⟩ := ih (i + 1) hf'
      refine ⟨fuel + 1, id, ?_, hfr⟩
      simp [cmuLoop, hc, hloop]

/-- C8 (amended): when the bucket exists and the random stream draws, at
some index, a value whose string is not yet an upload id of the object's
parts map, `create_multipart_upload` terminates with a fresh upload id and
registers it with an empty part list. -/
theorem c8_create_multipart_upload_terminates (st : Storage)
    (objs : List (String × Object)) (bucket key : String)
    (stream : Nat → Nat) (n : Nat) (hb : lookupA st bucket = some objs)
    (hfresh :
      lookupA ((lookupA objs key).getD Object.deflt).parts
        (toString (stream n % 4294967296)) = none) :
    ∃ (fuel : Nat) (id : String) (obj' : Object),
      create_multipart_upload st bucket key stream fuel =
          some (Except.ok (updateA st bucket (updateA objs key obj'), id)) ∧
        lookupA ((lookupA objs key).getD Object.deflt).parts id = none ∧
        lookupA obj'.parts id = some [] := by
  have hfresh0 :
      lookupA ((lookupA objs key).getD Object.deflt).parts
        (toString (stream (0 + n) % 4294967296)) = none := by
    rw [Nat.zero_add]
    exact hfresh
  obtain ⟨fuel, id, hloop, hfr⟩ :=
    cmuLoop_finds ((lookupA objs key).getD Object.deflt).parts stream n 0
      hfresh0
  refine ⟨fuel, id,
    { (lookupA objs key).getD Object.deflt with
      parts := ((lookupA objs key).getD Object.deflt).parts ++ [(id, [])] },
    ?_, hfr, ?_⟩
  · unfold create_multipart_upload
    simp only [hb, hloop]
  · exact lookupA_append_fresh _ _ _ hfr

/-- The one-pending-upload object of C8's diverging input: upload id `"0"`
is already taken. -/
def objZ : Object :=
  { body := [], completed := false, parts := [("0", [])],
    last_modified := none, content_length := 0 }

/-- C8's diverging input: bucket `b`, key `k`, object `objZ`. -/
def stZ : Storage := [("b", [("k", objZ)])]

theorem cmuLoop_const_zero_none :
    ∀ fuel i, cmuLoop [("0", [])] (fun _ => 0) fuel i = none := by
  intro fuel
  induction fuel with
  | zero => intro i; rfl
  | succ n ih =>
    intro i
    have hc : lookupA [("0", ([] : List ObjectPart))]
        (toString ((0 : Nat) % 4294967296)) = some [] := by decide
    simp [cmuLoop, hc]
    exact ih (i + 1)

/-- C8, counterexample to the claim as stated: with upload id `"0"` already
registered and a random stream that always draws `0`, the retry loop of
`create_multipart_upload` never returns, for any draw budget — so the claim
"terminates for every storage state and every random stream" is false. -/
theorem c8_counterexample_diverges : cmuDiverges stZ "b" "k" (fun _ => 0) := by
  intro fuel
  unfold create_multipart_upload
  rw [show lookupA stZ "b" = some [("k", objZ)] from rfl]
  simp only [show lookupA [("k", objZ)] "k" = some objZ from rfl,
    Option.getD_some]
  rw [show objZ.parts = [("0", [])] from rfl,
    cmuLoop_const_zero_none fuel 0]

/-- C8, witness: a concrete bucket whose object has upload id `"0"` taken,
and the stream that draws `1` at index `0`: the call returns at fuel `1`
with the fresh id `"1"`. -/
theorem c8_create_multipart_upload_terminates_witness :
    lookupA stZ "b" = some [("k", objZ)] ∧
      lookupA ((lookupA [("k", objZ)] "k").getD Object.deflt).parts
          (toString ((fun _ : Nat => (1 : Nat)) 0 % 4294967296)) = none ∧
      ∃ (fuel : Nat) (id : String) (obj' : Object),
        create_multipart_upload stZ "b" "k" (fun _ => 1) fuel =
            some (Except.ok
              (updateA stZ "b" (updateA [("k", objZ)] "k" obj'), id)) ∧
          lookupA ((lookupA [("k", objZ)] "k").getD Object.deflt).parts id =
              none ∧
          lookupA obj'.parts id = some [] :=
  ⟨rfl, by decide,
    c8_create_multipart_upload_terminates stZ [("k", objZ)] "b" "k"
      (fun _ => 1) 0 rfl (by decide)⟩

/-- C9: on a completed stored object, `get_object` with no range and a part
number either rejects the part number (negative, or at least the body
length) with an "invalid part number" error or reaches the
`todo!("get object by part number")` panic — it never returns a body for
any part number. -/
theorem c9_get_object_part_number_unsupported (st : Storage)
    (objs : List (String × Object)) (obj : Object) (bucket key : String)
    (pn : Int) (body : List Nat)
    (hb : lookupA st bucket = some objs) (hk : lookupA objs key = some obj)
    (hc : obj.completed = true) :
    (get_object st bucket key none (some pn) =
        GetResult.err (S3Error.invalidPartNumber pn) ∨
      get_object st bucket key none (some pn) = GetResult.panic) ∧
    get_object st bucket key none (some pn) ≠ GetResult.ok body := by
  unfold get_object
  by_cases h : pn < 0 ∨ obj.body.length ≤ pn.toNat
  · simp [hb, hk, hc, h]
  · simp [hb, hk, hc, h]

/-- The completed, partless object of C9's witness. -/
def objC : Object :=
  { body := [5], completed := true, parts := [], last_modified := none,
    content_length := 1 }

/-- The storage of C9's witness. -/
def stC : Storage := [("bc", [("kc", objC)])]

/-- C9, witness: part number `3` against a one-byte completed object is
rejected, and no body is ever returned. -/
theorem c9_get_object_part_number_unsupported_witness :
    lookupA stC "bc" = some [("kc", objC)] ∧
      lookupA [("kc", objC)] "kc" = some objC ∧ objC.completed = true ∧
      ((get_object stC "bc" "kc" none (some 3) =
          GetResult.err (S3Error.invalidPartNumber 3) ∨
        get_object stC "bc" "kc" none (some 3) = GetResult.panic) ∧
        get_object stC "bc" "kc" none (some 3) ≠ GetResult.ok [5]) :=
  ⟨rfl, rfl, rfl,
    c9_get_object_part_number_unsupported stC [("kc", objC)] objC "bc" "kc"
      3 [5] rfl rfl rfl⟩

/-- C10: `delete_object` — and `delete_objects` for its listed key — errors
exactly on a missing bucket; against an existing bucket it succeeds, leaving
a missing key or an uncompleted object untouched, removing a completed
object with no pending uploads, and, for a completed object that still has
pending uploads, clearing the body and the completed flag while keeping the
parts — after which `get_object` reports `NoSuchKey` and `head_object`
reports `NotFound` on that key. -/
theorem c10_delete_object_semantics (st st2 : Storage) (bucket key : String)
    (objs : List (String × Object)) (obj : Object)
    (hb : lookupA st bucket = some objs) :
    (lookupA st2 bucket = none →
      delete_object st2 bucket key =
          Except.error (S3Error.noSuchBucket bucket) ∧
        delete_objects st2 bucket (some [some key]) =
          Except.error (S3Error.noSuchBucket bucket)) ∧
    ∃ st' : Storage,
      delete_object st bucket key = Except.ok st' ∧
      delete_objects st bucket (some [some key]) = Except.ok (st', [key]) ∧
      lookupA st' bucket = some (deleteKeyEffect objs key) ∧
      (lookupA objs key = none → deleteKeyEffect objs key = objs) ∧
      (lookupA objs key = some obj → obj.completed = false →
        deleteKeyEffect objs key = objs) ∧
      (lookupA objs key = some obj → obj.completed = true →
        obj.parts = [] → lookupA (deleteKeyEffect objs key) key = none) ∧
      (lookupA objs key = some obj → obj.completed = true →
        obj.parts ≠ [] →
        lookupA (deleteKeyEffect objs key) key =
            some { obj with completed := false, body := [] } ∧
          get_object st' bucket key none none =
            GetResult.err (S3Error.noSuchKey key) ∧
          head_object st' bucket key =
            Except.error (S3Error.notFound key)) := by
  constructor
  · intro h2
    constructor
    · unfold delete_object
      simp only [h2]
    · unfold delete_objects
      simp only [h2]
  · refine ⟨updateA st bucket (deleteKeyEffect objs key),
      ?_, ?_, lookupA_updateA_self _ _ _, ?_, ?_, ?_, ?_⟩
    · unfold delete_object
      simp only [hb]
    · unfold delete_objects
      simp only [hb]
      rfl
    · intro hn
      simp [deleteKeyEffect, hn]
    · intro hs hcf
      simp [deleteKeyEffect, hs, hcf]
    · intro hs hct hpe
      simp [deleteKeyEffect, hs, hct, hpe, lookupA_eraseA_self]
    · intro hs hct hpne
      have hpf : obj.parts.isEmpty = false := by
        cases hp : obj.parts with
        | nil => exact absurd hp hpne
        | cons a l => rfl
      have heff :
          deleteKeyEffect objs key =
            updateA objs key { obj with completed := false, body := [] } := by
        simp [deleteKeyEffect, hs, hct, hpf]
      have h1 :
          lookupA (updateA st bucket (deleteKeyEffect objs key)) bucket =
            some (updateA objs key
              { obj with completed := false, body := [] }) := by
        have h0 := lookupA_updateA_self st bucket (deleteKeyEffect objs key)
        nth_rewrite 2 [heff] at h0
        exact h0
      have h2 :
          lookupA
              (updateA objs key { obj with completed := false, body := [] })
              key =
            some { obj with completed := false, body := [] } :=
        lookupA_updateA_self _ _ _
      refine ⟨?_, ?_, ?_⟩
      · rw [heff]
        exact h2
      · unfold get_object
        simp [h1, h2]
      · unfold head_object
        simp [h1, h2]

/-- The completed object with a pending upload of C10's witness. -/
def objP : Object :=
  { body := [1, 2], completed := true, parts := [("7", [])],
    last_modified := none, content_length := 2 }

/-- The storage of C10's witness. -/
def stP : Storage := [("bp", [("kp", objP)])]

/-- C10, witness: deleting `kp` (completed, one pending upload) from `bp`,
and deleting from the empty storage. -/
theorem c10_delete_object_semantics_witness :
    lookupA stP "bp" = some [("kp", objP)] ∧
      ((lookupA ([] : Storage) "bp" = none →
        delete_object [] "bp" "kp" =
            Except.error (S3Error.noSuchBucket "bp") ∧
          delete_objects [] "bp" (some [some "kp"]) =
            Except.error (S3Error.noSuchBucket "bp")) ∧
      ∃ st' : Storage,
        delete_object stP "bp" "kp" = Except.ok st' ∧
        delete_objects stP "bp" (some [some "kp"]) =
          Except.ok (st', ["kp"]) ∧
        lookupA st' "bp" = some (deleteKeyEffect [("kp", objP)] "kp") ∧
        (lookupA [("kp", objP)] "kp" = none →
          deleteKeyEffect [("kp", objP)] "kp" = [("kp", objP)]) ∧
        (lookupA [("kp", objP)] "kp" = some objP → objP.completed = false →
          deleteKeyEffect [("kp", objP)] "kp" = [("kp", objP)]) ∧
        (lookupA [("kp", objP)] "kp" = some objP → objP.completed = true →
          objP.parts = [] →
          lookupA (deleteKeyEffect [("kp", objP)] "kp") "kp" = none) ∧
        (lookupA [("kp", objP)] "kp" = some objP → objP.completed = true →
          objP.parts ≠ [] →
          lookupA (deleteKeyEffect [("kp", objP)] "kp") "kp" =
              some { objP with completed := false, body := [] } ∧
            get_object st' "bp" "kp" none none =
              GetResult.err (S3Error.noSuchKey "kp") ∧
            head_object st' "bp" "kp" =
              Except.error (S3Error.notFound "kp"))) :=
  ⟨rfl, c10_delete_object_semantics stP [] "bp" "kp" [("kp", objP)] objP rfl⟩
